import Mathlib

/-!
Verification development for the rog-server repository.

Shallow embedding of the session/game-lifecycle engine:
`JoinCodeGenerator`, the abstract `Game` roster operations, the
`GameManager` operations (`createGame`, `joinGame`, `endGame`,
`beginGame`), the Hilar question pipeline, the Holdem deck/betting
logic, the poker winner determination and the Duel shot handler.

JavaScript `Map`s are embedded as insertion-ordered association lists
with `Map.get` / `Map.set` / `Map.delete` semantics; `Math.random`
draws are threaded as explicit lists of choices; JS exceptions are
embedded with `Except`.
-/

namespace RogServer

/-! ## JoinCodeGenerator (JoinCodeGenerator.ts) -/

/-- `JOIN_CODE_CHARACTERS = '23456789'` as a list of characters. -/
def JOIN_CODE_CHARACTERS : List Char := ['2', '3', '4', '5', '6', '7', '8', '9']

def DEFAULT_JOIN_CODE_LENGTH : Nat := 5

/-- One iteration of the inner `for` loop body of `generateCode`: each
random draw `Math.floor(Math.random() * JOIN_CODE_CHARACTERS.length)`
is embedded as a natural number reduced mod the alphabet size. -/
def buildCode (attempt : List Nat) : String :=
  String.mk (attempt.map (fun r => JOIN_CODE_CHARACTERS.getD (r % JOIN_CODE_CHARACTERS.length) '2'))

/-- The `do { code = ... } while (this.alreadyGeneratedCodes.includes(code))`
loop of `JoinCodeGenerator.generateCode`, over an explicit list of random
attempts (each attempt is the list of character draws for one candidate).
Returns `none` when the supplied attempts are exhausted with every candidate
colliding.  NOTE (faithful to the source): the method only READS
`alreadyGeneratedCodes`; no code is ever appended to it. -/
def generateCodeLoop (alreadyGeneratedCodes : List String) : List (List Nat) → Option String
  | [] => none
  | attempt :: rest =>
    let code := buildCode attempt
    if alreadyGeneratedCodes.contains code then generateCodeLoop alreadyGeneratedCodes rest
    else some code

/-! ## Abstract Game (Game.ts) — roster-level state

For the GameManager claims only roster membership, sizes and the
configuration limits matter, so the per-player data is dropped here;
`players` is the insertion-ordered key list of the JS `Map`.
The aliasing behaviour of the per-player data is modelled separately
below for the default-state claim. -/

structure GameCfg where
  gameId : String
  minPlayers : Nat
  maxPlayers : Nat
  canJoinAfterBegin : Bool
  canLeaveAfterBegin : Bool
deriving DecidableEq, Repr

/-- `HILAR_GAME_CONFIG` (Hilar.ts). -/
def HILAR_CFG : GameCfg := ⟨"HILAR", 2, 8, false, false⟩

/-- `DUEL_GAME_CONFIG` (Duel.ts).  The source object omits
`canJoinAfterBegin` / `canLeaveAfterBegin`; the JS reads
`game.gameConfig.canJoinAfterBegin` then yield `undefined`, which is
falsy, so both are embedded as `false`. -/
def DUEL_CFG : GameCfg := ⟨"DUEL", 2, 2, false, false⟩

/-- `CHAT_GAME_CONFIG` (Chat.ts). -/
def CHAT_CFG : GameCfg := ⟨"CHAT", 1, 32, true, true⟩

structure GameM where
  joinCode : String
  creatorId : String
  cfg : GameCfg
  players : List String
  hasBegun : Bool
deriving DecidableEq, Repr

/-- `Game.addPlayer` (Game.ts): no-op when the player is present or the
roster is at capacity, otherwise inserts the player (JS `Map.set` of a
fresh key appends in iteration order). -/
def GameM.addPlayer (g : GameM) (userId : String) : GameM :=
  if g.players.contains userId ∨ g.players.length ≥ g.cfg.maxPlayers then g
  else { g with players := g.players ++ [userId] }

/-- `Game.removePlayer` (Game.ts). -/
def GameM.removePlayer (g : GameM) (userId : String) : GameM :=
  { g with players := g.players.filter (fun u => u ≠ userId) }

/-! ## JS `Map` association-list operations (insertion ordered) -/

def mapGet (k : String) : List (String × GameM) → Option GameM
  | [] => none
  | e :: rest => if e.1 = k then some e.2 else mapGet k rest

def mapSet (k : String) (v : GameM) : List (String × GameM) → List (String × GameM)
  | [] => [(k, v)]
  | e :: rest => if e.1 = k then (k, v) :: rest else e :: mapSet k v rest

def mapDelete (k : String) : List (String × GameM) → List (String × GameM)
  | [] => []
  | e :: rest => if e.1 = k then rest else e :: mapDelete k rest

/-! ## GameManager (GameManager.ts) -/

structure MState where
  activeGames : List (String × GameM)
  alreadyGeneratedCodes : List String
deriving Repr

def MState.initial : MState := ⟨[], []⟩

/-- `GameManager.playerInGame`. -/
def playerInGame (st : MState) (userId : String) : Bool :=
  st.activeGames.any (fun e => e.2.players.contains userId)

/-- `GameManager.getPlayerGame`, returned together with its map key. -/
def getPlayerEntry (st : MState) (userId : String) : Option (String × GameM) :=
  st.activeGames.find? (fun e => e.2.players.contains userId)

/-- The game selected by `createGame`'s `if`/`else if` chain on `gameId`. -/
def gameCfgOf : String → Option GameCfg
  | "HILAR" => some HILAR_CFG
  | "DUEL" => some DUEL_CFG
  | "CHAT" => some CHAT_CFG
  | _ => none

/-- `GameManager.joinGame` (error emissions return `false` with the state
untouched; the successful path mutates the joined game in place, i.e.
re-stores it under its key). -/
def joinGame (st : MState) (joinCode userId : String) : Bool × MState :=
  if playerInGame st userId then (false, st)
  else
    match mapGet joinCode st.activeGames with
    | none => (false, st)
    | some game =>
      if game.players.length ≥ game.cfg.maxPlayers then (false, st)
      else if game.hasBegun ∧ game.cfg.canJoinAfterBegin = false then (false, st)
      else
        (true, { st with activeGames := mapSet joinCode (game.addPlayer userId) st.activeGames })

/-- `GameManager.createGame`: reject an occupied creator, generate a join
code, instantiate the configured game, store it in `activeGames`, then
self-`joinGame` the creator.  The join-timeout callback is a later
`endGame` and is covered by the `endGame` operation. -/
def createGame (st : MState) (gameId creatorId : String) (randoms : List (List Nat)) :
    Bool × MState :=
  if playerInGame st creatorId then (false, st)
  else
    match generateCodeLoop st.alreadyGeneratedCodes randoms with
    | none => (false, st)
    | some joinCode =>
      match gameCfgOf gameId with
      | none => (false, st)
      | some cfg =>
        let game : GameM := ⟨joinCode, creatorId, cfg, [], false⟩
        let st1 : MState := { st with activeGames := mapSet joinCode game st.activeGames }
        (true, (joinGame st1 joinCode creatorId).2)

/-- `GameManager.endGame`: delete the game (if it exists) by its own
`joinCode` field. -/
def endGame (st : MState) (joinCode : String) : MState :=
  match mapGet joinCode st.activeGames with
  | none => st
  | some game => { st with activeGames := mapDelete game.joinCode st.activeGames }

/-- `GameManager.beginGame`: creator-only, minimum-size-gated transition of
the caller's game to `hasBegun = true`. -/
def beginGameOp (st : MState) (userId : String) : Bool × MState :=
  match getPlayerEntry st userId with
  | none => (false, st)
  | some (c, game) =>
    if game.creatorId ≠ userId then (false, st)
    else if game.players.length < game.cfg.minPlayers then (false, st)
    else (true, { st with activeGames := mapSet c { game with hasBegun := true } st.activeGames })

/-- The operations a client can drive the manager through. -/
inductive Op where
  | create (gameId creatorId : String) (randoms : List (List Nat))
  | join (joinCode userId : String)
  | begin (userId : String)
  | destroy (joinCode : String)
deriving Repr

def applyOp (st : MState) : Op → MState
  | .create gameId creatorId randoms => (createGame st gameId creatorId randoms).2
  | .join joinCode userId => (joinGame st joinCode userId).2
  | .begin userId => (beginGameOp st userId).2
  | .destroy joinCode => endGame st joinCode

/-- The manager state reached by a sequence of operations from start-up. -/
def runOps (ops : List Op) : MState :=
  ops.foldl applyOp MState.initial

/-! ## Map / roster lemmas -/

def keysOf (l : List (String × GameM)) : List String := l.map Prod.fst

/-- The number of live rooms whose roster contains `userId`. -/
def numGamesWith (userId : String) (l : List (String × GameM)) : Nat :=
  l.countP (fun e => decide (userId ∈ e.2.players))

theorem numGamesWith_nil (userId : String) : numGamesWith userId [] = 0 := by
  simp [numGamesWith]

theorem numGamesWith_cons (userId : String) (e : String × GameM) (l : List (String × GameM)) :
    numGamesWith userId (e :: l) =
      numGamesWith userId l + (if userId ∈ e.2.players then 1 else 0) := by
  simp [numGamesWith, List.countP_cons]

theorem mem_mapSet {e : String × GameM} {k : String} {v : GameM} {l : List (String × GameM)}
    (h : e ∈ mapSet k v l) : e ∈ l ∨ e = (k, v) := by
  induction l with
  | nil => simpa [mapSet] using h
  | cons hd tl ih =>
    by_cases hk : hd.1 = k
    · simp only [mapSet, if_pos hk, List.mem_cons] at h
      rcases h with h | h
      · exact Or.inr h
      · exact Or.inl (List.mem_cons_of_mem _ h)
    · simp only [mapSet, if_neg hk, List.mem_cons] at h
      rcases h with h | h
      · exact Or.inl (h ▸ List.mem_cons_self _ _)
      · rcases ih h with h' | h'
        · exact Or.inl (List.mem_cons_of_mem _ h')
        · exact Or.inr h'

theorem mapGet_mem {k : String} {g : GameM} {l : List (String × GameM)}
    (h : mapGet k l = some g) : (k, g) ∈ l := by
  induction l with
  | nil => simp [mapGet] at h
  | cons hd tl ih =>
    obtain ⟨a, b⟩ := hd
    by_cases hk : a = k
    · simp only [mapGet, if_pos hk] at h
      obtain rfl : b = g := by injection h
      subst hk
      exact List.mem_cons_self _ _
    · simp only [mapGet, if_neg hk] at h
      exact List.mem_cons_of_mem _ (ih h)

theorem keys_mapSet_subset {a k : String} {v : GameM} {l : List (String × GameM)}
    (h : a ∈ keysOf (mapSet k v l)) : a ∈ keysOf l ∨ a = k := by
  induction l with
  | nil => simpa [mapSet, keysOf] using h
  | cons hd tl ih =>
    by_cases hk : hd.1 = k
    · simp only [mapSet, if_pos hk, keysOf, List.map_cons, List.mem_cons] at h
      rcases h with h | h
      · exact Or.inr h
      · exact Or.inl (List.mem_cons_of_mem _ h)
    · simp only [mapSet, if_neg hk, keysOf, List.map_cons, List.mem_cons] at h
      rcases h with h | h
      · exact Or.inl (h ▸ List.mem_cons_self _ _)
      · rcases ih h with h' | h'
        · exact Or.inl (List.mem_cons_of_mem _ h')
        · exact Or.inr h'

theorem keysOf_nodup_mapSet {k : String} {v : GameM} {l : List (String × GameM)}
    (h : (keysOf l).Nodup) : (keysOf (mapSet k v l)).Nodup := by
  induction l with
  | nil => simp [mapSet, keysOf]
  | cons hd tl ih =>
    simp only [keysOf, List.map_cons, List.nodup_cons] at h
    by_cases hk : hd.1 = k
    · simp only [mapSet, if_pos hk, keysOf, List.map_cons, List.nodup_cons]
      exact ⟨fun hc => h.1 (hk ▸ hc), h.2⟩
    · simp only [mapSet, if_neg hk, keysOf, List.map_cons, List.nodup_cons]
      refine ⟨fun hc => ?_, ih h.2⟩
      rcases keys_mapSet_subset hc with h' | h'
      · exact h.1 h'
      · exact hk h'

theorem mapDelete_sublist (k : String) (l : List (String × GameM)) :
    (mapDelete k l).Sublist l := by
  induction l with
  | nil => simp [mapDelete]
  | cons hd tl ih =>
    by_cases hk : hd.1 = k
    · rw [mapDelete, if_pos hk]
      exact List.sublist_cons_self hd tl
    · simpa [mapDelete, hk] using ih.cons₂ hd

theorem mapGet_eq_of_mem_nodup {k : String} {g : GameM} {l : List (String × GameM)}
    (hn : (keysOf l).Nodup) (hm : (k, g) ∈ l) : mapGet k l = some g := by
  induction l with
  | nil => simp at hm
  | cons hd tl ih =>
    simp only [keysOf, List.map_cons, List.nodup_cons] at hn
    rcases List.mem_cons.mp hm with h | h
    · simp [mapGet, ← h]
    · have hk : hd.1 ≠ k := by
        intro he
        exact hn.1 (he ▸ (List.mem_map_of_mem Prod.fst h))
      simp only [mapGet, if_neg hk]
      exact ih hn.2 h

theorem numGamesWith_mapSet_le (uid k : String) (v : GameM) (l : List (String × GameM)) :
    numGamesWith uid (mapSet k v l) ≤
      numGamesWith uid l + (if uid ∈ v.players then 1 else 0) := by
  induction l with
  | nil =>
    rw [mapSet, numGamesWith_cons, numGamesWith_nil]
  | cons hd tl ih =>
    by_cases hk : hd.1 = k
    · rw [mapSet, if_pos hk, numGamesWith_cons, numGamesWith_cons]
      dsimp only
      omega
    · rw [mapSet, if_neg hk, numGamesWith_cons, numGamesWith_cons]
      omega

theorem numGamesWith_mapSet_of_get {uid k : String} {v g : GameM} {l : List (String × GameM)}
    (hg : mapGet k l = some g) (himp : uid ∈ v.players → uid ∈ g.players) :
    numGamesWith uid (mapSet k v l) ≤ numGamesWith uid l := by
  induction l with
  | nil => simp [mapGet] at hg
  | cons hd tl ih =>
    by_cases hk : hd.1 = k
    · rw [mapGet, if_pos hk] at hg
      obtain rfl : hd.2 = g := by injection hg
      rw [mapSet, if_pos hk, numGamesWith_cons, numGamesWith_cons]
      dsimp only
      have hle : (if uid ∈ v.players then 1 else 0) ≤
          (if uid ∈ hd.2.players then 1 else 0) := by
        split_ifs with h1 h2
        any_goals omega
        exact absurd (himp h1) h2
      omega
    · rw [mapGet, if_neg hk] at hg
      rw [mapSet, if_neg hk, numGamesWith_cons, numGamesWith_cons]
      have := ih hg
      omega

theorem numGamesWith_eq_zero {st : MState} {uid : String}
    (h : playerInGame st uid = false) : numGamesWith uid st.activeGames = 0 := by
  rw [numGamesWith, List.countP_eq_zero]
  intro e he
  have := (List.any_eq_false).mp h e he
  simpa using this

theorem addPlayer_length_le {g : GameM} {uid : String}
    (h : g.players.length ≤ g.cfg.maxPlayers) :
    (g.addPlayer uid).players.length ≤ g.cfg.maxPlayers := by
  rw [GameM.addPlayer]
  split
  · exact h
  · rename_i hcond
    push_neg at hcond
    show (g.players ++ [uid]).length ≤ g.cfg.maxPlayers
    have := hcond.2
    simp only [List.length_append, List.length_singleton]
    omega

theorem addPlayer_cfg (g : GameM) (uid : String) : (g.addPlayer uid).cfg = g.cfg := by
  rw [GameM.addPlayer]
  split <;> rfl

theorem addPlayer_mem_of {g : GameM} {uid u : String}
    (h : u ∈ (g.addPlayer uid).players) : u ∈ g.players ∨ u = uid := by
  rw [GameM.addPlayer] at h
  split at h
  · exact Or.inl h
  · have h2 : u ∈ g.players ++ [uid] := h
    rcases List.mem_append.mp h2 with h' | h'
    · exact Or.inl h'
    · exact Or.inr (List.mem_singleton.mp h')

/-! ## Manager invariants: roster capacity and single-room membership -/

def Inv (st : MState) : Prop :=
  (keysOf st.activeGames).Nodup ∧
  (∀ e ∈ st.activeGames, e.2.players.length ≤ e.2.cfg.maxPlayers) ∧
  (∀ uid : String, numGamesWith uid st.activeGames ≤ 1)

theorem Inv_initial : Inv MState.initial := by
  refine ⟨by simp [MState.initial, keysOf], by simp [MState.initial], ?_⟩
  intro uid
  simp [MState.initial, numGamesWith]

theorem Inv_joinGame {st : MState} (h : Inv st) (code uid : String) :
    Inv (joinGame st code uid).2 := by
  rw [joinGame]
  split
  · exact h
  · rename_i hpg
    rcases hget : mapGet code st.activeGames with _ | game
    · exact h
    · simp only [hget]
      split
      · exact h
      · split
        · exact h
        · dsimp only [Inv]
          refine ⟨keysOf_nodup_mapSet h.1, ?_, ?_⟩
          · intro e he
            rcases mem_mapSet he with h' | h'
            · exact h.2.1 e h'
            · subst h'
              have hgb := h.2.1 (code, game) (mapGet_mem hget)
              dsimp only at hgb ⊢
              rw [addPlayer_cfg]
              exact addPlayer_length_le hgb
          · intro u
            by_cases hu : u = uid
            · subst hu
              have h0 : numGamesWith u st.activeGames = 0 :=
                numGamesWith_eq_zero (by simpa using hpg)
              have hb := numGamesWith_mapSet_le u code (game.addPlayer u) st.activeGames
              have hite : (if u ∈ (game.addPlayer u).players then 1 else 0) ≤ 1 := by
                split_ifs <;> omega
              omega
            · have := numGamesWith_mapSet_of_get (v := game.addPlayer uid) hget
                (fun hc => by
                  rcases addPlayer_mem_of hc with h' | h'
                  · exact h'
                  · exact absurd h' hu)
              exact le_trans this (h.2.2 u)

theorem Inv_createGame {st : MState} (h : Inv st) (gameId creatorId : String)
    (randoms : List (List Nat)) : Inv (createGame st gameId creatorId randoms).2 := by
  rw [createGame]
  split
  · exact h
  · rcases hgen : generateCodeLoop st.alreadyGeneratedCodes randoms with _ | code
    · exact h
    · simp only
      rcases hcfg : gameCfgOf gameId with _ | cfg

      · exact h
      · simp only
        apply Inv_joinGame
        dsimp only [Inv]
        refine ⟨keysOf_nodup_mapSet h.1, ?_, ?_⟩
        · intro e he
          rcases mem_mapSet he with h' | h'
          · exact h.2.1 e h'
          · subst h'
            simp
        · intro u
          have hb := numGamesWith_mapSet_le u code ⟨code, creatorId, cfg, [], false⟩ st.activeGames
          have h2 := h.2.2 u
          simp only [List.not_mem_nil, if_false] at hb
          omega

theorem Inv_beginGame {st : MState} (h : Inv st) (uid : String) :
    Inv (beginGameOp st uid).2 := by
  rw [beginGameOp]
  rcases hfind : getPlayerEntry st uid with _ | e
  · exact h
  · obtain ⟨c, game⟩ := e
    simp only
    split
    · exact h
    · split
      · exact h
      · have hmem : (c, game) ∈ st.activeGames := List.mem_of_find?_eq_some hfind
        have hget : mapGet c st.activeGames = some game := mapGet_eq_of_mem_nodup h.1 hmem
        dsimp only [Inv]
        refine ⟨keysOf_nodup_mapSet h.1, ?_, ?_⟩
        · intro e he
          rcases mem_mapSet he with h' | h'
          · exact h.2.1 e h'
          · subst h'
            have hgb := h.2.1 (c, game) hmem
            dsimp only at hgb ⊢
            exact hgb
        · intro u
          have hle : numGamesWith u
              (mapSet c { game with hasBegun := true } st.activeGames) ≤
              numGamesWith u st.activeGames :=
            numGamesWith_mapSet_of_get hget (fun hc => hc)
          exact le_trans hle (h.2.2 u)

theorem Inv_endGame {st : MState} (h : Inv st) (code : String) : Inv (endGame st code) := by
  rw [endGame]
  rcases hget : mapGet code st.activeGames with _ | game
  · exact h
  · have hsub := mapDelete_sublist game.joinCode st.activeGames
    refine ⟨(hsub.map Prod.fst).nodup h.1, ?_, ?_⟩
    · intro e he
      exact h.2.1 e (hsub.subset he)
    · intro u
      exact le_trans (hsub.countP_le _) (h.2.2 u)

theorem Inv_applyOp {st : MState} (h : Inv st) (op : Op) : Inv (applyOp st op) := by
  cases op with
  | create gameId creatorId randoms => exact Inv_createGame h gameId creatorId randoms
  | join joinCode userId => exact Inv_joinGame h joinCode userId
  | begin userId => exact Inv_beginGame h userId
  | destroy joinCode => exact Inv_endGame h joinCode

theorem Inv_runOps (ops : List Op) : Inv (runOps ops) := by
  rw [runOps]
  induction ops using List.reverseRecOn with
  | nil => exact Inv_initial
  | append_singleton ops op ih =>
    rw [List.foldl_append, List.foldl_cons, List.foldl_nil]
    exact Inv_applyOp ih op

theorem joinGame_alreadyGeneratedCodes (st : MState) (code uid : String) :
    (joinGame st code uid).2.alreadyGeneratedCodes = st.alreadyGeneratedCodes := by
  rw [joinGame]
  split
  · rfl
  · rcases mapGet code st.activeGames with _ | game
    · rfl
    · dsimp only
      split
      · rfl
      · split <;> rfl

/-! ## Claim C1 — join-code uniqueness across live rooms -/

/-- The manager state after Alice creates a Chat room with all five random
character draws equal to 0, i.e. with issued join code `"22222"`. -/
def dupStep1 : MState := (createGame MState.initial "CHAT" "alice" [[0, 0, 0, 0, 0]]).2

/-- Claim C1 fails on the code: `generateCode` never appends the codes it
issues to `alreadyGeneratedCodes` (the only write to that array is its
initialiser), so with the random draws `[0,0,0,0,0]` twice, the second
`createGame` issues the code `"22222"` even though the room `"22222"` from
the first `createGame` is still in `activeGames`; the `activeGames.set`
then silently replaces Alice's live room with Bob's.  The last conjunct is
the general statement that no `createGame` call ever extends
`alreadyGeneratedCodes`. -/
theorem C1_duplicate_join_code :
    mapGet "22222" dupStep1.activeGames =
      some ⟨"22222", "alice", CHAT_CFG, ["alice"], false⟩ ∧
    generateCodeLoop dupStep1.alreadyGeneratedCodes [[0, 0, 0, 0, 0]] = some "22222" ∧
    (createGame dupStep1 "CHAT" "bob" [[0, 0, 0, 0, 0]]).2.activeGames =
      [("22222", ⟨"22222", "bob", CHAT_CFG, ["bob"], false⟩)] ∧
    (∀ (st : MState) (gameId creatorId : String) (randoms : List (List Nat)),
        (createGame st gameId creatorId randoms).2.alreadyGeneratedCodes =
          st.alreadyGeneratedCodes) := by
  refine ⟨by decide, by decide, by decide, ?_⟩
  intro st gameId creatorId randoms
  rw [createGame]
  split
  · rfl
  · rcases generateCodeLoop st.alreadyGeneratedCodes randoms with _ | code
    · rfl
    · dsimp only
      rcases gameCfgOf gameId with _ | cfg
      · rfl
      · dsimp only
        rw [joinGame_alreadyGeneratedCodes]

/-! ## Claim C2 — roster capacity -/

/-- Claim C2: over every sequence of manager operations, every live room's
roster length stays within its configured `maxPlayers`; and `joinGame` on a
room whose roster is exactly at `maxPlayers` returns `false` and leaves the
whole manager state (in particular that room's roster) unchanged. -/
theorem C2_roster_capacity :
    (∀ ops : List Op, ∀ e ∈ (runOps ops).activeGames,
        e.2.players.length ≤ e.2.cfg.maxPlayers) ∧
    (∀ (st : MState) (code uid : String) (g : GameM),
        mapGet code st.activeGames = some g →
        g.players.length = g.cfg.maxPlayers →
        joinGame st code uid = (false, st)) := by
  constructor
  · intro ops e he
    exact (Inv_runOps ops).2.1 e he
  · intro st code uid g hget hfull
    rw [joinGame]
    split
    · rfl
    · simp only [hget]
      rw [if_pos (show g.players.length ≥ g.cfg.maxPlayers by omega)]

/-- A Duel room at capacity (`maxPlayers = 2`) and a manager holding it. -/
def fullDuelGame : GameM := ⟨"33333", "alice", DUEL_CFG, ["alice", "bob"], false⟩

def fullDuelState : MState := ⟨[("33333", fullDuelGame)], []⟩

theorem C2_roster_capacity_witness :
    (("22222", (⟨"22222", "alice", CHAT_CFG, ["alice"], false⟩ : GameM)).2.players.length ≤
        ("22222", (⟨"22222", "alice", CHAT_CFG, ["alice"], false⟩ : GameM)).2.cfg.maxPlayers) ∧
    joinGame fullDuelState "33333" "carol" = (false, fullDuelState) :=
  ⟨C2_roster_capacity.1 [Op.create "CHAT" "alice" [[0, 0, 0, 0, 0]]] _ (by decide),
   C2_roster_capacity.2 fullDuelState "33333" "carol" fullDuelGame (by decide) (by decide)⟩

/-! ## Claim C3 — no identity in two live rooms -/

/-- Claim C3: `createGame` and `joinGame` invoked for an identity already in
some live room return `false` without touching the state, and consequently
in every reachable manager state each identity belongs to at most one live
room. -/
theorem C3_single_room :
    (∀ (st : MState) (gameId code uid : String) (randoms : List (List Nat)),
        playerInGame st uid = true →
        createGame st gameId uid randoms = (false, st) ∧
        joinGame st code uid = (false, st)) ∧
    (∀ (ops : List Op) (uid : String), numGamesWith uid (runOps ops).activeGames ≤ 1) := by
  constructor
  · intro st gameId code uid randoms hin
    constructor
    · rw [createGame, if_pos hin]
    · rw [joinGame, if_pos hin]
  · intro ops uid
    exact (Inv_runOps ops).2.2 uid

theorem C3_single_room_witness :
    (createGame fullDuelState "CHAT" "alice" [[0, 0, 0, 0, 0]] = (false, fullDuelState) ∧
      joinGame fullDuelState "33333" "alice" = (false, fullDuelState)) ∧
    numGamesWith "alice"
      (runOps [Op.create "DUEL" "alice" [[1, 1, 1, 1, 1]],
        Op.join "33333" "bob"]).activeGames ≤ 1 :=
  ⟨C3_single_room.1 fullDuelState "CHAT" "33333" "alice" [[0, 0, 0, 0, 0]] (by decide),
   C3_single_room.2 [Op.create "DUEL" "alice" [[1, 1, 1, 1, 1]], Op.join "33333" "bob"] "alice"⟩

/-! ## Cards (common/cards.ts) -/

inductive CardSuit where
  | NULL | CLUBS | DIAMONDS | HEARTS | SPADES
deriving DecidableEq, Repr

inductive CardRank where
  | NULL | TWO | THREE | FOUR | FIVE | SIX | SEVEN | EIGHT | NINE | TEN
  | JACK | QUEEN | KING | ACE
deriving DecidableEq, Repr

structure Card where
  suit : CardSuit
  rank : CardRank
deriving DecidableEq, Repr

/-- `STANDARD_DECK`: all clubs two..ace, then diamonds, hearts, spades, in
the order of the source literal. -/
def STANDARD_DECK : List Card :=
  ([CardSuit.CLUBS, CardSuit.DIAMONDS, CardSuit.HEARTS, CardSuit.SPADES]).flatMap (fun s =>
    ([CardRank.TWO, CardRank.THREE, CardRank.FOUR, CardRank.FIVE, CardRank.SIX,
      CardRank.SEVEN, CardRank.EIGHT, CardRank.NINE, CardRank.TEN, CardRank.JACK,
      CardRank.QUEEN, CardRank.KING, CardRank.ACE]).map (fun r => ⟨s, r⟩))

/-- In-place swap of two array slots (the destructuring assignment inside
`shuffleArray`). -/
def listSwap (arr : List Card) (i j : Nat) : List Card :=
  match arr.get? i, arr.get? j with
  | some a, some b => (arr.set i b).set j a
  | _, _ => arr

/-- The countdown loop of `shuffleArray`: at loop counter `i ≥ 1` the draw
`Math.floor(Math.random() * (i + 1))` is embedded as `r % (i + 1)`; the
stream of draws is explicit.  Stops at `i = 0` (loop guard `i >= 1`). -/
def shuffleAux : List Card → Nat → List Nat → List Card
  | arr, 0, _ => arr
  | arr, _ + 1, [] => arr
  | arr, c + 1, r :: rs => shuffleAux (listSwap arr (c + 1) (r % (c + 2))) c rs

/-- `shuffleArray` (common/cards.ts): Fisher-Yates from index `length - 1`
down to `1`, mutating the array in place. -/
def shuffleArray (rand : List Nat) (arr : List Card) : List Card :=
  shuffleAux arr (arr.length - 1) rand

/-- `Deck.draw` is `this.cards.pop()`: remove and return the LAST element.
`drawMany k` performs `k` such pops. -/
def drawMany (k : Nat) (cards : List Card) : List Card :=
  cards.take (cards.length - k)

/-- Random draws that make every Fisher-Yates step swap a slot with itself
(`j = i`), i.e. the identity shuffle — one legal value of the random
stream.  For an array of length `n` these are the draws `n-1, n-2, …, 1`. -/
def identityDraws (n : Nat) : List Nat := (List.range n).reverse.dropLast

/-! ## Claim C4 — the per-hand deck is not fresh

`Holdem.prepareRound` runs `this.deck = new Deck(STANDARD_DECK, true)`.
The `Deck` constructor stores `this.cards = initial || []` WITHOUT copying,
so `deck.cards` aliases the module-level `STANDARD_DECK` array; the in-place
shuffle and every `pop()` of `draw()` mutate `STANDARD_DECK` itself.  The
embedding therefore tracks the contents of that single shared array: the
deck constructed for a hand is exactly the current contents of
`STANDARD_DECK` at that moment. -/

/-- Contents of the shared array when hand 1's `prepareRound` finishes
constructing its deck (identity shuffle draws). -/
def handOneConstructed : List Card := shuffleArray (identityDraws 52) STANDARD_DECK

/-- Contents of the shared array after hand 1 with 3 players: 6 hole-card
pops in `prepareRound`, then 3 (`doFlop`) + 1 (`doTurn`) + 1 (`doRiver`). -/
def stdAfterHandOne : List Card := drawMany 5 (drawMany 6 handOneConstructed)

/-- Contents of the shared array when hand 2's `prepareRound` finishes
constructing its deck. -/
def handTwoConstructed : List Card := shuffleArray (identityDraws 41) stdAfterHandOne

/-- Claim C4 fails on the code: for hand 1 the constructed deck is indeed
the 52 distinct standard cards, but because `new Deck(STANDARD_DECK, true)`
aliases (rather than copies) the module constant and `draw()` pops from it,
hand 2's deck is constructed from the 41 cards left over after hand 1 —
not 52, contradicting "regardless of how many hands were played before". -/
theorem C4_deck_not_fresh :
    handOneConstructed = STANDARD_DECK ∧
    STANDARD_DECK.length = 52 ∧ STANDARD_DECK.Nodup ∧
    handTwoConstructed.length = 41 :=
  ⟨by decide, by decide, by decide, by decide⟩

/-! ## Claim C5 — `addPlayer` default-state copies are shallow

`Game.addPlayer` copies the configured default with a spread,
`{...this.gameConfig.defaultPlayerData}`.  A JS spread copies the top-level
fields only: field values that are object references (the `responses`,
`questions`, `questionIndices` array literals of `HILAR_GAME_CONFIG`,
allocated once at module load) are copied as references.  The embedding
makes the references explicit: arrays live in a heap indexed by `Nat`, and
the player record stores the index. -/

/-- `HilarPlayerData` with array-valued fields replaced by heap references
(`score`/`canVote`/`displayName` are primitives and genuinely copied). -/
structure HilarPlayerDataRef where
  displayName : String
  score : Int
  responsesRef : Nat
  questionsRef : Nat
  questionIndicesRef : Nat
  canVote : Bool
deriving DecidableEq, Repr

/-- The heap of string-array objects at module load: slot 0 is the
`responses: []` literal of `HILAR_GAME_CONFIG.defaultPlayerData`, slot 1 its
`questions: []` literal.  (`questionIndices` lives in a separate number-array
heap that the theorem does not need.) -/
def hilarHeap0 : List (List String) := [[], []]

/-- `HILAR_GAME_CONFIG.defaultPlayerData` with its array fields as heap
references. -/
def HILAR_DEFAULT_REF : HilarPlayerDataRef := ⟨"", 0, 0, 1, 0, false⟩

/-- `Game.addPlayer` on a Hilar roster with the default initial data: guard,
then shallow spread copy, then display-name stamp.  The spread copies the
reference fields verbatim — no new heap allocation happens. -/
def addPlayerShallow (players : List (String × HilarPlayerDataRef)) (maxPlayers : Nat)
    (userId displayName : String) : List (String × HilarPlayerDataRef) :=
  if (players.map Prod.fst).contains userId ∨ players.length ≥ maxPlayers then players
  else players ++ [(userId, { HILAR_DEFAULT_REF with displayName := displayName })]

/-- `player.responses.push(text)` from `Hilar.handleQuestionResponse`:
mutates the heap array that the player's `responsesRef` points to. -/
def pushResponse (heap : List (List String)) (p : HilarPlayerDataRef) (text : String) :
    List (List String) :=
  heap.set p.responsesRef ((heap.getD p.responsesRef []) ++ [text])

/-- The `responses` array a player (or the template) observes. -/
def observedResponses (heap : List (List String)) (p : HilarPlayerDataRef) : List String :=
  heap.getD p.responsesRef []

/-- Roster after adding Alice and Bob with the default state (max 8). -/
def c5Players : List (String × HilarPlayerDataRef) :=
  addPlayerShallow (addPlayerShallow [] 8 "alice" "Alice") 8 "bob" "Bob"

def aliceRef : HilarPlayerDataRef := ⟨"Alice", 0, 0, 1, 0, false⟩

def bobRef : HilarPlayerDataRef := ⟨"Bob", 0, 0, 1, 0, false⟩

/-- The heap after Alice's `responses.push("haha")`. -/
def c5Heap1 : List (List String) := pushResponse hilarHeap0 aliceRef "haha"

/-- Claim C5 fails on the code: after two default-state `addPlayer` calls
both players and the shared `defaultPlayerData` template hold the SAME
`responses` array (reference 0), so pushing a response through Alice's
state makes the string observable through Bob's state and through the
template — the copies are not independent. -/
theorem C5_shared_default_template :
    c5Players = [("alice", aliceRef), ("bob", bobRef)] ∧
    aliceRef.responsesRef = HILAR_DEFAULT_REF.responsesRef ∧
    bobRef.responsesRef = HILAR_DEFAULT_REF.responsesRef ∧
    observedResponses c5Heap1 aliceRef = ["haha"] ∧
    observedResponses c5Heap1 bobRef = ["haha"] ∧
    observedResponses c5Heap1 HILAR_DEFAULT_REF = ["haha"] :=
  ⟨by decide, by decide, by decide, by decide, by decide, by decide⟩

/-! ## Claim C6 — the question-assignment loop need not terminate -/

/-- The inner `do { q2 = Math.floor(Math.random() * pool.length) } while
(pool[q2] === q1)` loop of `Hilar.assignQuestions`, over an explicit list
of random draws (`r % pool.length` embeds the floor-scaled draw).  The loop
exits only on a slot whose VALUE differs from `q1`; `none` means the given
draws were exhausted without exiting. -/
def findQ2 : List Nat → List Nat → Nat → Option Nat
  | [], _, _ => none
  | r :: rs, pool, q1 =>
    let idx := r % pool.length
    if pool.get? idx = some q1 then findQ2 rs pool q1 else some idx

/-- One iteration of the per-player loop of `assignQuestions`: splice a
random `q1` out of the pool, then run the `q2` loop and splice the found
slot.  Returns the two question indices and the shrunken pool, or `none`
when the `q2` loop did not exit. -/
def assignOne (pool : List Nat) (r1 : Nat) (q2Draws : List Nat) :
    Option ((Nat × Nat) × List Nat) :=
  let i1 := r1 % pool.length
  match pool.get? i1 with
  | none => none
  | some q1 =>
    let pool1 := pool.eraseIdx i1
    match findQ2 q2Draws pool1 q1 with
    | none => none
    | some i2 =>
      match pool1.get? i2 with
      | none => none
      | some q2 => some ((q1, q2), pool1.eraseIdx i2)

/-- `assignQuestions` over the players in roster order, with one `(r1,
q2Draws)` random bundle per player. -/
def assignAll (pool : List Nat) : List (Nat × List Nat) → Option (List (Nat × Nat) × List Nat)
  | [] => some ([], pool)
  | (r1, q2Draws) :: rest =>
    match assignOne pool r1 q2Draws with
    | none => none
    | some (pair, pool1) =>
      match assignAll pool1 rest with
      | none => none
      | some (pairs, pool2) => some (pair :: pairs, pool2)

/-- The pool built at the top of `assignQuestions`: two slots per question
index. -/
def hilarPool (numQuestions : Nat) : List Nat :=
  (List.range numQuestions).flatMap (fun i => [i, i])

/-- `populateQuestions`: draw `numPlayers` distinct prompts from a copy of
the question set, one random splice per player. -/
def populateQuestions : Nat → List Nat → List String → List String
  | 0, _, _ => []
  | _ + 1, [], _ => []
  | n + 1, r :: rs, qCopy =>
    let i := r % qCopy.length
    match qCopy.get? i with
    | some q => q :: populateQuestions n rs (qCopy.eraseIdx i)
    | none => []

/-- Claim C6 fails on the code: with 3 players (within the 2..8 bounds),
`populateQuestions` does produce exactly 3 prompts, but there is a sequence
of random choices after which `assignQuestions` never terminates.  Player 1
draws prompts (0,1) and player 2 draws (1,0), leaving the pool `[2, 2]`;
player 3 then splices `q1 = 2`, the remaining pool is `[2]`, and since its
only slot equals `q1` the do-while guard `pool[q2] === q1` holds for EVERY
random draw — no finite draw sequence exits the loop. -/
theorem assignAll_cons_none {pool : List Nat} {r1 : Nat} {q2Draws : List Nat}
    {rest : List (Nat × List Nat)} (h : assignOne pool r1 q2Draws = none) :
    assignAll pool ((r1, q2Draws) :: rest) = none := by
  simp only [assignAll, h]

theorem assignAll_cons_some {pool pool1 : List Nat} {r1 : Nat} {q2Draws : List Nat}
    {pair : Nat × Nat} {rest : List (Nat × List Nat)}
    (h : assignOne pool r1 q2Draws = some (pair, pool1)) :
    assignAll pool ((r1, q2Draws) :: rest) =
      match assignAll pool1 rest with
      | none => none
      | some (pairs, pool2) => some (pair :: pairs, pool2) := by
  simp only [assignAll, h]

/-- Claim C6 fails on the code: with 3 players (within the 2..8 bounds),
`populateQuestions` does produce exactly 3 prompts, but there is a sequence
of random choices after which `assignQuestions` never terminates.  Player 1
draws prompts (0,1) and player 2 draws (1,0), leaving the pool `[2, 2]`;
player 3 then splices `q1 = 2`, the remaining pool is `[2]`, and since its
only slot equals `q1` the do-while guard `pool[q2] === q1` holds for EVERY
random draw — no finite draw sequence exits the loop. -/
theorem C6_assignQuestions_nonterminating :
    (populateQuestions 3 [0, 0, 0] ["qa", "qb", "qc", "qd", "qe"]).length = 3 ∧
    hilarPool 3 = [0, 0, 1, 1, 2, 2] ∧
    assignAll (hilarPool 3) [(0, [1]), (1, [0])] = some ([(0, 1), (1, 0)], [2, 2]) ∧
    (∀ q2Draws : List Nat, findQ2 q2Draws [2] 2 = none) ∧
    (∀ q2Draws : List Nat,
        assignAll (hilarPool 3) [(0, [1]), (1, [0]), (0, q2Draws)] = none) := by
  have hstuck : ∀ q2Draws : List Nat, findQ2 q2Draws [2] 2 = none := by
    intro q2Draws
    induction q2Draws with
    | nil => rfl
    | cons r rs ih =>
      simp only [findQ2, List.length_singleton, Nat.mod_one]
      rw [if_pos (show [2].get? 0 = some 2 from rfl)]
      exact ih
  refine ⟨by decide, by decide, by decide, hstuck, ?_⟩
  intro q2Draws
  have h2 : assignOne [2, 2] 0 q2Draws = none := by
    have hrfl : assignOne [2, 2] 0 q2Draws =
        (match findQ2 q2Draws [2] 2 with
         | none => none
         | some i2 =>
           match [2].get? i2 with
           | none => none
           | some q2 => some ((2, q2), [2].eraseIdx i2)) := rfl
    rw [hrfl, hstuck q2Draws]
  rw [show hilarPool 3 = [0, 0, 1, 1, 2, 2] from by decide]
  rw [assignAll_cons_some
    (show assignOne [0, 0, 1, 1, 2, 2] 0 [1] = some ((0, 1), [0, 1, 2, 2]) from by decide)]
  rw [assignAll_cons_some
    (show assignOne [0, 1, 2, 2] 1 [0] = some ((1, 0), [2, 2]) from by decide)]
  rw [assignAll_cons_none h2]

/-! ## Claim C7 — response-length validation compares the string itself -/

/-- A JS payload field value as the Hilar handlers see it. -/
inductive JsValue where
  | str (s : String)
  | num (n : Int)
  | undef
deriving DecidableEq, Repr

/-- Partial model of JS `ToNumber` on strings, enough for the evaluated
inputs: the empty string is `0`, a pure digit string is its numeric value,
anything else is `NaN` (`none`).  (Signs, decimals, whitespace and
exponents are outside the modelled fragment and outside the inputs used.) -/
def jsStringToNumber (s : String) : Option Int :=
  match s.data with
  | [] => some 0
  | cs =>
    if cs.all Char.isDigit then
      some (Int.ofNat (cs.foldl (fun acc c => acc * 10 + (c.toNat - Char.toNat '0')) 0))
    else none

/-- The JS comparison `s > n` between a string and a number: `s` is coerced
with `ToNumber`; any comparison against `NaN` is `false`. -/
def jsGreaterThanNum (s : String) (n : Int) : Bool :=
  match jsStringToNumber s with
  | none => false
  | some m => m > n

def RESPONSE_MIN_LENGTH : Nat := 3

def RESPONSE_MAX_LENGTH : Nat := 256

/-- The validation guard of `Hilar.handleQuestionResponse`:
`typeof payload.responseText !== 'string' ||
 payload.responseText.length < RESPONSE_MIN_LENGTH ||
 payload.responseText > RESPONSE_MAX_LENGTH`.
The third disjunct compares the STRING value itself against 256 (JS number
coercion), not its length. -/
def responseRejected (responseText : JsValue) : Bool :=
  match responseText with
  | .str s =>
    decide (s.length < RESPONSE_MIN_LENGTH) ||
      jsGreaterThanNum s (Int.ofNat RESPONSE_MAX_LENGTH)
  | _ => true

structure HilarQResponse where
  responseText : String
  userId : String
deriving DecidableEq, Repr

/-- The slice of Hilar state that `handleQuestionResponse` touches: the
acting player's `responses` and `questionIndices`, the shared
`currentQuestionResponses`, `currentResponsesCount`, the round timer flag
and the roster size. -/
structure HilarRespondState where
  responses : List String
  questionIndices : List Nat
  currentQuestionResponses : List (List HilarQResponse)
  currentResponsesCount : Nat
  timerPass : Bool
  numPlayers : Nat
deriving DecidableEq, Repr

/-- `this.currentQuestionResponses[i].push(qr)`. -/
def recordAt (qrs : List (List HilarQResponse)) (i : Nat) (qr : HilarQResponse) :
    List (List HilarQResponse) :=
  qrs.set i ((qrs.getD i []) ++ [qr])

/-- `Hilar.handleQuestionResponse` for a player that is in the game:
validation, then record the response against the player's first or second
assigned question, bump the response counter and release the round wait
once `2 × players.size` responses are in.  The returned `Bool` is whether a
`gameError` was emitted (all error paths leave the state unchanged). -/
def handleQuestionResponse (st : HilarRespondState) (userId : String)
    (responseText : JsValue) : HilarRespondState × Bool :=
  if responseRejected responseText then (st, true)
  else
    match responseText with
    | .str s =>
      let responses1 := st.responses ++ [s]
      if responses1.length = 1 then
        let count1 := st.currentResponsesCount + 1
        ({ st with
            responses := responses1,
            currentQuestionResponses :=
              recordAt st.currentQuestionResponses (st.questionIndices.getD 0 0) ⟨s, userId⟩,
            currentResponsesCount := count1,
            timerPass := if count1 ≥ st.numPlayers * 2 then true else st.timerPass }, false)
      else if responses1.length = 2 then
        let count1 := st.currentResponsesCount + 1
        ({ st with
            responses := responses1,
            currentQuestionResponses :=
              recordAt st.currentQuestionResponses (st.questionIndices.getD 1 0) ⟨s, userId⟩,
            currentResponsesCount := count1,
            timerPass := if count1 ≥ st.numPlayers * 2 then true else st.timerPass }, false)
      else (st, true)
    | _ => (st, true)

/-- A 300-character response text. -/
def longResponse : String := String.mk (List.replicate 300 'a')

/-- Respond-phase state of a 3-player round before any response: the acting
player is assigned questions 0 and 1. -/
def c7Start : HilarRespondState := ⟨[], [0, 1], [[], [], []], 0, false, 3⟩

set_option maxRecDepth 4000 in
/-- Claim C7 fails on the code: because the guard compares
`payload.responseText > 256` (string-to-number coercion, `NaN` for
non-numeric text, and any `NaN` comparison is `false`) instead of
`payload.responseText.length > 256`, a 300-character response passes
validation and is recorded — the state mutates and no `gameError` is sent.
Conversely the perfectly legal 3-character response `"500"` is rejected,
since `Number("500") > 256`. -/
theorem C7_long_response_accepted :
    longResponse.length = 300 ∧
    responseRejected (JsValue.str longResponse) = false ∧
    handleQuestionResponse c7Start "alice" (JsValue.str longResponse) =
      (⟨[longResponse], [0, 1], [[⟨longResponse, "alice"⟩], [], []], 1, false, 3⟩, false) ∧
    responseRejected (JsValue.str "500") = true ∧
    ("500").length = 3 :=
  ⟨by decide, by decide, by decide, by decide, by decide⟩

/-! ## Claim C8 — the shot handler throws when the ray hits a wall -/

/-- The `userData` of a collision body.  Player circles are created with
`userData: { userId }`; the static wall polygons of `Duel.initializeMap`
are created with no `userData` option at all, so reading `body.userData`
yields JS `undefined`. -/
inductive BodyUserData where
  | undef
  | withUserId (userId : String)
deriving DecidableEq, Repr

/-- The first body intersected by `collisionSystem.raycast`, reduced to the
only field the handler reads. -/
structure RaycastHit where
  userData : BodyUserData
deriving DecidableEq, Repr

inductive JsError where
  | typeError
deriving DecidableEq, Repr

/-- Duel per-player state touched by `handlePlayerShoot`. -/
structure DuelPlayer where
  health : Nat
  numShots : Nat
  numHits : Nat
deriving DecidableEq, Repr

def SHOT_DAMAGE : Nat := 8

def duelUpdate (l : List (String × DuelPlayer)) (uid : String)
    (f : DuelPlayer → DuelPlayer) : List (String × DuelPlayer) :=
  match l with
  | [] => []
  | e :: rest => if e.1 = uid then (e.1, f e.2) :: rest else e :: duelUpdate rest uid f

def duelLookup (l : List (String × DuelPlayer)) (uid : String) : Option DuelPlayer :=
  match l with
  | [] => none
  | e :: rest => if e.1 = uid then some e.2 else duelLookup rest uid

/-- `Duel.handlePlayerShoot` after the socket layer: the real-time
rate-limit comparison against `Date.now()` is taken as the Boolean input
`rateLimited`, and the geometry of `collisionSystem.raycast` (an external
library call) as the oracle input `hit`.  Faithful to the JS: a missing
player or an invalid direction emit an error and return; a rate-limited
shot silently returns; otherwise `numShots` rises and the guard
`hit && 'userId' in hit.body.userData` is evaluated — and when the first
intersected body carries no `userData` (a wall), the `in` operator applied
to `undefined` RAISES a `TypeError`, which the embedding returns as
`Except.error`. -/
def handlePlayerShoot (players : List (String × DuelPlayer)) (userId : String)
    (rateLimited : Bool) (direction : JsValue) (hit : Option RaycastHit) :
    Except JsError (List (String × DuelPlayer) × Option String) :=
  match duelLookup players userId with
  | none => Except.ok (players, none)
  | some _ =>
    if rateLimited then Except.ok (players, none)
    else
      match direction with
      | .num _ =>
        let players1 := duelUpdate players userId
          (fun p => { p with numShots := p.numShots + 1 })
        match hit with
        | none => Except.ok (players1, none)
        | some h =>
          match h.userData with
          | .undef => Except.error JsError.typeError
          | .withUserId targetId =>
            match duelLookup players1 targetId with
            | none => Except.ok (players1, some targetId)
            | some _ =>
              let players2 := duelUpdate players1 targetId
                (fun p => { p with health := p.health - SHOT_DAMAGE })
              let players3 := duelUpdate players2 userId
                (fun p => { p with numHits := p.numHits + 1 })
              Except.ok (players3, some targetId)
      | _ => Except.ok (players, none)

/-- Claim C8 fails on the code: with both players alive and a wall as the
first body on the ray, `handlePlayerShoot` raises a `TypeError` out of the
socket handler (`'userId' in hit.body.userData` with `userData` undefined)
instead of returning normally; the same shot with a player hit or a miss
completes normally. -/
theorem C8_shoot_throws_on_wall :
    handlePlayerShoot [("alice", ⟨100, 0, 0⟩), ("bob", ⟨100, 0, 0⟩)] "alice" false
        (JsValue.num 0) (some ⟨BodyUserData.undef⟩) =
      Except.error JsError.typeError ∧
    handlePlayerShoot [("alice", ⟨100, 0, 0⟩), ("bob", ⟨100, 0, 0⟩)] "alice" false
        (JsValue.num 0) none =
      Except.ok ([("alice", ⟨100, 1, 0⟩), ("bob", ⟨100, 0, 0⟩)], none) ∧
    handlePlayerShoot [("alice", ⟨100, 0, 0⟩), ("bob", ⟨100, 0, 0⟩)] "alice" false
        (JsValue.num 0) (some ⟨BodyUserData.withUserId "bob"⟩) =
      Except.ok ([("alice", ⟨100, 1, 1⟩), ("bob", ⟨92, 0, 0⟩)], some "bob") :=
  ⟨rfl, rfl, rfl⟩

/-! ## Claim C9 — `getWinners` returns exactly the argmin set -/

def MAX_SAFE_INTEGER : Nat := 2 ^ 53 - 1

/-- `cardToString` (common/cards.ts): numeric ranks print as `rank + 1`
(`TWO = 1` … `TEN = 9`), face cards as letters, suits as lower-case
letters. -/
def cardToString (c : Card) : String :=
  (match c.rank with
   | CardRank.NULL => "X"
   | CardRank.TWO => "2"
   | CardRank.THREE => "3"
   | CardRank.FOUR => "4"
   | CardRank.FIVE => "5"
   | CardRank.SIX => "6"
   | CardRank.SEVEN => "7"
   | CardRank.EIGHT => "8"
   | CardRank.NINE => "9"
   | CardRank.TEN => "10"
   | CardRank.JACK => "J"
   | CardRank.QUEEN => "Q"
   | CardRank.KING => "K"
   | CardRank.ACE => "A") ++
  (match c.suit with
   | CardSuit.CLUBS => "c"
   | CardSuit.DIAMONDS => "d"
   | CardSuit.HEARTS => "h"
   | CardSuit.SPADES => "s"
   | CardSuit.NULL => "x")

/-- `gradePlayerHands` (common/poker.ts): score each player's river + hole
hand; `rankCardsFast` of the external `phe` library is the parameter
`rank` (lower is better).  `players` is a JS `Map` (unique keys, insertion
order). -/
def gradePlayerHands (rank : List String → Nat) (river : List String)
    (players : List (String × List String)) : List (String × Nat) :=
  players.map (fun p => (p.1, rank (river ++ p.2)))

/-- The `for (const [uid, score] of scores)` loop of `getWinners`:
`lowest` starts as `[['', Number.MAX_SAFE_INTEGER]]`; a score equal to
`lowest[0][1]` is pushed, a strictly lower score resets the list, anything
else is skipped.  (`headD` only ever sees a nonempty list: the accumulator
starts nonempty and stays nonempty.) -/
def lowestFold (acc : List (String × Nat)) : List (String × Nat) → List (String × Nat)
  | [] => acc
  | e :: rest =>
    if e.2 = (acc.headD ("", MAX_SAFE_INTEGER)).2 then lowestFold (acc ++ [e]) rest
    else if e.2 < (acc.headD ("", MAX_SAFE_INTEGER)).2 then lowestFold [e] rest
    else lowestFold acc rest

/-- `getWinners` (common/poker.ts). -/
def getWinners (rank : List String → Nat) (river : List Card)
    (players : List (String × List Card)) : List String :=
  let sRiver := river.map cardToString
  let sPlayers := players.map (fun p => (p.1, p.2.map cardToString))
  let scores := gradePlayerHands rank sRiver sPlayers
  (lowestFold [("", MAX_SAFE_INTEGER)] scores).map Prod.fst

/-- Minimum of the scores of `l` and the initial value `h`. -/
def minScore (h : Nat) (l : List (String × Nat)) : Nat :=
  (l.map Prod.snd).foldr min h

theorem minScore_nil (h : Nat) : minScore h [] = h := rfl

theorem minScore_cons (h : Nat) (e : String × Nat) (l : List (String × Nat)) :
    minScore h (e :: l) = min e.2 (minScore h l) := rfl

theorem minScore_le_init (h : Nat) (l : List (String × Nat)) : minScore h l ≤ h := by
  induction l with
  | nil => exact le_refl h
  | cons e l ih => rw [minScore_cons]; omega

theorem minScore_le_mem {h : Nat} {l : List (String × Nat)} {e : String × Nat}
    (hm : e ∈ l) : minScore h l ≤ e.2 := by
  induction l with
  | nil => cases hm
  | cons x l ih =>
    rw [minScore_cons]
    rcases List.mem_cons.mp hm with h' | h'
    · rw [h']; omega
    · have := ih h'; omega

theorem le_minScore {a h : Nat} {l : List (String × Nat)}
    (hle : ∀ e ∈ l, a ≤ e.2) (hh : a ≤ h) : a ≤ minScore h l := by
  induction l with
  | nil => exact hh
  | cons x l ih =>
    rw [minScore_cons]
    have h1 := hle x (List.mem_cons_self _ _)
    have h2 := ih (fun e he => hle e (List.mem_cons_of_mem _ he))
    omega

theorem min_minScore (a h : Nat) (l : List (String × Nat)) :
    min a (minScore h l) = minScore (min a h) l := by
  induction l with
  | nil => rfl
  | cons e l ih =>
    rw [minScore_cons, minScore_cons, ← ih]
    omega

theorem lowestFold_eq_filter :
    ∀ (rest acc : List (String × Nat)) (h : Nat), acc ≠ [] → (∀ x ∈ acc, x.2 = h) →
      lowestFold acc rest =
        (acc ++ rest).filter (fun x => x.2 = minScore h rest) := by
  intro rest
  induction rest with
  | nil =>
    intro acc h hne hall
    rw [lowestFold]
    simp only [List.append_nil, minScore_nil]
    symm
    refine List.filter_eq_self.mpr ?_
    intro x hx
    simp [hall x hx]
  | cons e rest ih =>
    intro acc h hne hall
    have hhead : (acc.headD ("", MAX_SAFE_INTEGER)).2 = h := by
      cases acc with
      | nil => exact absurd rfl hne
      | cons a as => exact hall a (List.mem_cons_self _ _)
    rw [lowestFold, hhead]
    by_cases h1 : e.2 = h
    · rw [if_pos h1]
      rw [ih (acc ++ [e]) h (by simp) ?hall2]
      case hall2 =>
        intro x hx
        rcases List.mem_append.mp hx with h' | h'
        · exact hall x h'
        · rw [List.mem_singleton.mp h']; exact h1
      have hm : minScore h (e :: rest) = minScore h rest := by
        rw [minScore_cons, h1, min_minScore, Nat.min_self]
      rw [hm, List.append_assoc, List.singleton_append]
    · rw [if_neg h1]
      by_cases h2 : e.2 < h
      · rw [if_pos h2]
        rw [ih [e] e.2 (by simp) (by simp)]
        have hm : minScore h (e :: rest) = minScore e.2 rest := by
          rw [minScore_cons, min_minScore]
          congr 1
          omega
        rw [hm]
        have hdrop : acc.filter (fun x => decide (x.2 = minScore e.2 rest)) = [] := by
          rw [List.filter_eq_nil_iff]
          intro x hx
          have hx2 := hall x hx
          have hb := minScore_le_init e.2 rest
          simp only [decide_eq_true_eq]
          omega
        conv_rhs => rw [List.filter_append]
        rw [hdrop, List.nil_append, List.singleton_append]
      · rw [if_neg h2]
        rw [ih acc h hne hall]
        have hm : minScore h (e :: rest) = minScore h rest := by
          have hb := minScore_le_init h rest
          rw [minScore_cons]
          omega
        rw [hm, List.filter_append, List.filter_append, List.filter_cons]
        have hne2 : ¬ (e.2 = minScore h rest) := by
          have hb := minScore_le_init h rest
          omega
        simp [hne2]

/-- Claim C9: for a non-empty showdown map whose hand scores are below
`Number.MAX_SAFE_INTEGER` (the `phe` library's ranks always are),
`getWinners` returns an identity iff it is one of the players whose score
is minimal among all scored hands — every multi-way tie is returned in
full and nothing else is. -/
theorem C9_getWinners_argmin (rank : List String → Nat) (river : List Card)
    (players : List (String × List Card)) (hne : players ≠ [])
    (hbound : ∀ p ∈ players,
        rank (river.map cardToString ++ p.2.map cardToString) < MAX_SAFE_INTEGER) :
    ∀ uid, uid ∈ getWinners rank river players ↔
      ∃ p ∈ players, p.1 = uid ∧
        ∀ q ∈ players,
          rank (river.map cardToString ++ p.2.map cardToString) ≤
            rank (river.map cardToString ++ q.2.map cardToString) := by
  intro uid
  set score : String × List Card → Nat :=
    fun p => rank (river.map cardToString ++ p.2.map cardToString) with hscore
  have hscores : gradePlayerHands rank (river.map cardToString)
      (players.map (fun p => (p.1, p.2.map cardToString))) =
      players.map (fun p => (p.1, score p)) := by
    rw [gradePlayerHands, List.map_map]
    rfl
  set scores : List (String × Nat) := players.map (fun p => (p.1, score p)) with hsc
  have hgw : getWinners rank river players =
      (lowestFold [("", MAX_SAFE_INTEGER)] scores).map Prod.fst := by
    rw [getWinners, hscores]
  have hfold := lowestFold_eq_filter scores [("", MAX_SAFE_INTEGER)] MAX_SAFE_INTEGER
    (by simp) (by simp)
  -- the minimum over the scores list
  set m : Nat := minScore MAX_SAFE_INTEGER scores with hm
  have hscores_lt : ∀ e ∈ scores, e.2 < MAX_SAFE_INTEGER := by
    intro e he
    rw [hsc] at he
    rcases List.mem_map.mp he with ⟨p, hp, rfl⟩
    exact hbound p hp
  have hmlt : m < MAX_SAFE_INTEGER := by
    rcases List.exists_mem_of_ne_nil players hne with ⟨p, hp⟩
    have hmem : (p.1, score p) ∈ scores := by
      rw [hsc]
      exact List.mem_map_of_mem _ hp
    have h1 : m ≤ score p := minScore_le_mem hmem
    have h2 := hscores_lt _ hmem
    omega
  rw [hgw, hfold]
  constructor
  · intro hmem
    rcases List.mem_map.mp hmem with ⟨e, hefil, rfl⟩
    have hefil2 := List.mem_filter.mp hefil
    have hem : e.2 = m := by simpa using hefil2.2
    have hein : e ∈ scores := by
      rcases List.mem_cons.mp hefil2.1 with h' | h'
      · exfalso
        rw [h'] at hem
        simp only at hem
        omega
      · exact h'
    rcases List.mem_map.mp (hsc ▸ hein) with ⟨p, hp, hpe⟩
    refine ⟨p, hp, by rw [← hpe], ?_⟩
    intro q hq
    have hqm : (q.1, score q) ∈ scores := by
      rw [hsc]; exact List.mem_map_of_mem _ hq
    have h1 : m ≤ score q := minScore_le_mem hqm
    have h2 : score p = e.2 := by rw [← hpe]
    have h3 : score p ≤ score q := by omega
    exact h3
  · rintro ⟨p, hp, rfl, hmin⟩
    have hpm : (p.1, score p) ∈ scores := by
      rw [hsc]; exact List.mem_map_of_mem _ hp
    have h1 : m ≤ score p := minScore_le_mem hpm
    have h2 : score p ≤ m := by
      rw [hm]
      refine le_minScore ?_ ?_
      · intro e he
        rcases List.mem_map.mp (hsc ▸ he) with ⟨q, hq, rfl⟩
        exact hmin q hq
      · have hb : score p < MAX_SAFE_INTEGER := hbound p hp
        omega
    have hpeq : score p = m := le_antisymm h2 h1
    refine List.mem_map.mpr ⟨(p.1, score p), ?_, rfl⟩
    refine List.mem_filter.mpr ⟨List.mem_cons_of_mem _ hpm, by simpa using hpeq⟩

/-- Hole cards and community cards for the witness: two players' hands
scored with a concrete rank function that ties them. -/
def c9River : List Card :=
  [⟨CardSuit.CLUBS, CardRank.TWO⟩, ⟨CardSuit.CLUBS, CardRank.THREE⟩,
   ⟨CardSuit.CLUBS, CardRank.FOUR⟩, ⟨CardSuit.DIAMONDS, CardRank.NINE⟩,
   ⟨CardSuit.HEARTS, CardRank.KING⟩]

def c9Players : List (String × List Card) :=
  [("p1", [⟨CardSuit.SPADES, CardRank.ACE⟩, ⟨CardSuit.HEARTS, CardRank.ACE⟩]),
   ("p2", [⟨CardSuit.CLUBS, CardRank.ACE⟩, ⟨CardSuit.DIAMONDS, CardRank.ACE⟩])]

theorem C9_getWinners_argmin_witness :
    "p1" ∈ getWinners (fun hand => hand.length) c9River c9Players :=
  (C9_getWinners_argmin (fun hand => hand.length) c9River c9Players (by decide)
      (by decide) "p1").mpr
    ⟨("p1", [⟨CardSuit.SPADES, CardRank.ACE⟩, ⟨CardSuit.HEARTS, CardRank.ACE⟩]),
      by decide, rfl, by decide⟩

/-! ## Claim C10 — chip conservation in Holdem (exact arithmetic) -/

def BIG_BLIND : ℚ := 2

def SMALL_BLIND : ℚ := BIG_BLIND / 2

def BET_LIMIT : ℚ := BIG_BLIND * 5

inductive BettingAction where
  | CHECK | CALL | RAISE | FOLD
deriving DecidableEq, Repr

/-- The fields of `HoldemPlayerData` that a betting sub-round touches, with
money over exact rationals. -/
structure HoldemPlayer where
  money : ℚ
  bet : ℚ
  beenAsked : Bool
  hasFolded : Bool
deriving DecidableEq, Repr

structure HoldemBetState where
  players : List (String × HoldemPlayer)
  pot : ℚ
  roundTotal : ℚ
deriving DecidableEq, Repr

def holdemLookup : List (String × HoldemPlayer) → String → Option HoldemPlayer
  | [], _ => none
  | e :: rest, uid => if e.1 = uid then some e.2 else holdemLookup rest uid

def holdemUpdate (l : List (String × HoldemPlayer)) (uid : String)
    (f : HoldemPlayer → HoldemPlayer) : List (String × HoldemPlayer) :=
  match l with
  | [] => []
  | e :: rest => if e.1 = uid then (e.1, f e.2) :: rest else e :: holdemUpdate rest uid f

/-- `p.beenAsked = true` as stamped before the action is processed. -/
def markAskedUpdate (q : HoldemPlayer) : HoldemPlayer :=
  { q with beenAsked := true }

/-- Fold: `p.hasFolded = true` (money untouched). -/
def foldUpdate (q : HoldemPlayer) : HoldemPlayer :=
  { q with beenAsked := true, hasFolded := true }

/-- Charge `amount` from the player into the pot: `p.money -= amount;
p.bet += amount` (the pot itself is raised by the caller). -/
def chargeUpdate (amount : ℚ) (q : HoldemPlayer) : HoldemPlayer :=
  { q with beenAsked := true, money := q.money - amount, bet := q.bet + amount }

/-- The action-processing block at the bottom of `Holdem.doBetting` (after
the wait): `p.beenAsked = true` is stamped, then a legal CHECK moves
nothing; a funded CALL moves `callAmount = roundTotal - p.bet` from the
player to the pot; a legal RAISE (more than the call, affordable, within
`BET_LIMIT`) moves `askedAmount` and raises `roundTotal`; every other case
folds the player without moving money. -/
def processBetAction (st : HoldemBetState) (userId : String)
    (askedAction : BettingAction) (askedAmount : ℚ) : HoldemBetState :=
  match holdemLookup st.players userId with
  | none => st
  | some p =>
    let callAmount := st.roundTotal - p.bet
    let foldSt : HoldemBetState :=
      { st with players := holdemUpdate st.players userId foldUpdate }
    match askedAction with
    | .CHECK =>
      if st.roundTotal = 0 then
        { st with players := holdemUpdate st.players userId markAskedUpdate }
      else foldSt
    | .CALL =>
      if p.money ≥ callAmount then
        { st with players := holdemUpdate st.players userId (chargeUpdate callAmount),
                  pot := st.pot + callAmount }
      else foldSt
    | .RAISE =>
      if askedAmount > callAmount ∧ p.money ≥ askedAmount ∧ askedAmount ≤ BET_LIMIT then
        { st with players := holdemUpdate st.players userId (chargeUpdate askedAmount),
                  pot := st.pot + askedAmount,
                  roundTotal := st.roundTotal + (askedAmount - callAmount) }
      else foldSt
    | .FOLD => foldSt

/-- One credit step of the winner loop of `Holdem.finishRound`. -/
def creditOne (winnings : ℚ) (acc : List (String × HoldemPlayer)) (w : String) :
    List (String × HoldemPlayer) :=
  holdemUpdate acc w (fun p => { p with money := p.money + winnings })

/-- The winner-credit loop of `Holdem.finishRound`. -/
def creditWinners (players : List (String × HoldemPlayer)) (winners : List String)
    (winnings : ℚ) : List (String × HoldemPlayer) :=
  winners.foldl (creditOne winnings) players

/-- `Holdem.finishRound`: `winnings = pot / winners.length`, credited to
every winner present in the roster; the pot variable itself is not reset
here (the next `prepareRound` does that). -/
def finishRound (st : HoldemBetState) (winners : List String) : HoldemBetState :=
  { st with players := creditWinners st.players winners (st.pot / (winners.length : ℚ)) }

def moneySum (l : List (String × HoldemPlayer)) : ℚ :=
  (l.map (fun e => e.2.money)).sum

theorem moneySum_nil : moneySum [] = 0 := rfl

theorem moneySum_cons (e : String × HoldemPlayer) (l : List (String × HoldemPlayer)) :
    moneySum (e :: l) = e.2.money + moneySum l := by
  simp [moneySum]

theorem creditWinners_nil (l : List (String × HoldemPlayer)) (winnings : ℚ) :
    creditWinners l [] winnings = l := rfl

theorem creditWinners_cons (l : List (String × HoldemPlayer)) (w : String)
    (ws : List String) (winnings : ℚ) :
    creditWinners l (w :: ws) winnings = creditWinners (creditOne winnings l w) ws winnings := rfl

theorem holdemLookup_mem {l : List (String × HoldemPlayer)} {uid : String} {p : HoldemPlayer}
    (h : holdemLookup l uid = some p) : uid ∈ l.map Prod.fst := by
  induction l with
  | nil => simp [holdemLookup] at h
  | cons e rest ih =>
    rw [holdemLookup] at h
    by_cases he : e.1 = uid
    · simp [he]
    · rw [if_neg he] at h
      simp [ih h]

theorem moneySum_update_add {l : List (String × HoldemPlayer)} {uid : String} {d : ℚ}
    {f : HoldemPlayer → HoldemPlayer} (hf : ∀ p, (f p).money = p.money + d)
    (hin : uid ∈ l.map Prod.fst) :
    moneySum (holdemUpdate l uid f) = moneySum l + d := by
  induction l with
  | nil => simp at hin
  | cons e rest ih =>
    rw [holdemUpdate]
    by_cases he : e.1 = uid
    · rw [if_pos he, moneySum_cons, moneySum_cons]
      rw [hf e.2]
      ring
    · rw [if_neg he]
      have hin2 : uid ∈ rest.map Prod.fst := by
        rw [List.map_cons] at hin
        rcases List.mem_cons.mp hin with h' | h'
        · exact absurd h'.symm he
        · exact h'
      rw [moneySum_cons, moneySum_cons, ih hin2]
      ring

theorem moneySum_update_eq {l : List (String × HoldemPlayer)} {uid : String}
    {f : HoldemPlayer → HoldemPlayer} (hf : ∀ p, (f p).money = p.money) :
    moneySum (holdemUpdate l uid f) = moneySum l := by
  induction l with
  | nil => rfl
  | cons e rest ih =>
    rw [holdemUpdate]
    by_cases he : e.1 = uid
    · rw [if_pos he, moneySum_cons, moneySum_cons, hf e.2]
    · rw [if_neg he, moneySum_cons, moneySum_cons, ih]

theorem keys_holdemUpdate (l : List (String × HoldemPlayer)) (uid : String)
    (f : HoldemPlayer → HoldemPlayer) :
    (holdemUpdate l uid f).map Prod.fst = l.map Prod.fst := by
  induction l with
  | nil => rfl
  | cons e rest ih =>
    rw [holdemUpdate]
    by_cases he : e.1 = uid
    · rw [if_pos he]
      simp [he]
    · rw [if_neg he]
      simp [ih]

theorem holdemLookup_update_self (l : List (String × HoldemPlayer)) (uid : String)
    (f : HoldemPlayer → HoldemPlayer) :
    holdemLookup (holdemUpdate l uid f) uid = (holdemLookup l uid).map f := by
  induction l with
  | nil => rfl
  | cons e rest ih =>
    rw [holdemUpdate]
    by_cases he : e.1 = uid
    · rw [if_pos he]
      rw [holdemLookup, if_pos he, holdemLookup, if_pos he]
      rfl
    · rw [if_neg he]
      rw [holdemLookup, if_neg he, holdemLookup, if_neg he]
      exact ih

theorem holdemLookup_update_other {u uid : String} (hne : u ≠ uid)
    (l : List (String × HoldemPlayer)) (f : HoldemPlayer → HoldemPlayer) :
    holdemLookup (holdemUpdate l uid f) u = holdemLookup l u := by
  induction l with
  | nil => rfl
  | cons e rest ih =>
    rw [holdemUpdate]
    by_cases he : e.1 = uid
    · rw [if_pos he]
      have hnu : ¬ (e.1 = u) := by
        rw [he]
        exact fun h => hne h.symm
      rw [holdemLookup, if_neg hnu, holdemLookup, if_neg hnu]
    · rw [if_neg he]
      by_cases heu : e.1 = u
      · rw [holdemLookup, if_pos heu, holdemLookup, if_pos heu]
      · rw [holdemLookup, if_neg heu, holdemLookup, if_neg heu]
        exact ih

theorem moneySum_creditWinners (winnings : ℚ) :
    ∀ (winners : List String) (l : List (String × HoldemPlayer)),
      (∀ w ∈ winners, w ∈ l.map Prod.fst) →
      moneySum (creditWinners l winners winnings) =
        moneySum l + winnings * winners.length := by
  intro winners
  induction winners with
  | nil =>
    intro l _
    rw [creditWinners_nil]
    simp
  | cons w ws ih =>
    intro l hall
    rw [creditWinners_cons]
    have h1 : moneySum (creditOne winnings l w) = moneySum l + winnings :=
      moneySum_update_add (fun p => rfl) (hall w (List.mem_cons_self _ _))
    have hkeys : (creditOne winnings l w).map Prod.fst = l.map Prod.fst :=
      keys_holdemUpdate l w _
    have h2 := ih (creditOne winnings l w) (by
      intro v hv
      rw [hkeys]
      exact hall v (List.mem_cons_of_mem _ hv))
    rw [h2, h1, List.length_cons]
    push_cast
    ring

theorem holdemLookup_creditWinners_not_mem (winnings : ℚ) :
    ∀ (winners : List String) (l : List (String × HoldemPlayer)) (u : String),
      u ∉ winners →
      holdemLookup (creditWinners l winners winnings) u = holdemLookup l u := by
  intro winners
  induction winners with
  | nil =>
    intro l u _
    rw [creditWinners_nil]
  | cons w ws ih =>
    intro l u hu
    rw [creditWinners_cons]
    have hne : u ≠ w := fun h => hu (h ▸ List.mem_cons_self _ _)
    rw [ih (creditOne winnings l w) u (fun h => hu (List.mem_cons_of_mem _ h))]
    exact holdemLookup_update_other hne l _

theorem holdemLookup_creditWinners_mem (winnings : ℚ) :
    ∀ (winners : List String) (l : List (String × HoldemPlayer)) (w : String),
      winners.Nodup → w ∈ winners →
      holdemLookup (creditWinners l winners winnings) w =
        (holdemLookup l w).map (fun p => { p with money := p.money + winnings }) := by
  intro winners
  induction winners with
  | nil =>
    intro l w _ hw
    cases hw
  | cons v ws ih =>
    intro l w hnd hw
    rw [creditWinners_cons]
    rcases List.mem_cons.mp hw with rfl | hw'
    · have hnotin : w ∉ ws := (List.nodup_cons.mp hnd).1
      rw [holdemLookup_creditWinners_not_mem winnings ws (creditOne winnings l w) w hnotin]
      exact holdemLookup_update_self l w _
    · have hne : w ≠ v := by
        rintro rfl
        exact (List.nodup_cons.mp hnd).1 hw'
      rw [ih (creditOne winnings l v) w (List.nodup_cons.mp hnd).2 hw']
      have hoth : holdemLookup (creditOne winnings l v) w = holdemLookup l w :=
        holdemLookup_update_other hne l _
      rw [hoth]

/-- Claim C10 (implicit chip conservation): over exact rational arithmetic,
(1) every processed betting action leaves the sum of all players' money
plus the pot unchanged — checks and folds move nothing, a funded call
moves the call amount, a legal raise moves the raise amount; and (2) for a
non-empty duplicate-free winner list drawn from the roster, `finishRound`
credits each winner exactly `pot / winners.length`, so the players' total
money grows by exactly the pot (with the pot variable itself untouched):
the amount conserved during betting returns to the players in full. -/
theorem C10_chip_conservation :
    (∀ (st : HoldemBetState) (userId : String) (a : BettingAction) (amt : ℚ),
        moneySum (processBetAction st userId a amt).players +
            (processBetAction st userId a amt).pot =
          moneySum st.players + st.pot) ∧
    (∀ (st : HoldemBetState) (winners : List String),
        winners ≠ [] → winners.Nodup →
        (∀ w ∈ winners, w ∈ st.players.map Prod.fst) →
        moneySum (finishRound st winners).players = moneySum st.players + st.pot ∧
        (finishRound st winners).pot = st.pot ∧
        (∀ w ∈ winners,
          holdemLookup (finishRound st winners).players w =
            (holdemLookup st.players w).map
              (fun p => { p with money := p.money + st.pot / (winners.length : ℚ) }))) := by
  constructor
  · intro st userId a amt
    rw [processBetAction]
    rcases hlk : holdemLookup st.players userId with _ | p
    · rfl
    · have hin : userId ∈ st.players.map Prod.fst := holdemLookup_mem hlk
      have hfold : moneySum (holdemUpdate st.players userId foldUpdate) = moneySum st.players :=
        moneySum_update_eq (fun p => rfl)
      cases a with
      | CHECK =>
        dsimp only
        split
        · have hx : moneySum (holdemUpdate st.players userId markAskedUpdate) =
              moneySum st.players := moneySum_update_eq (fun p => rfl)
          dsimp only
          rw [hx]
        · dsimp only
          rw [hfold]
      | CALL =>
        dsimp only
        split
        · have hx : moneySum (holdemUpdate st.players userId
                (chargeUpdate (st.roundTotal - p.bet))) =
              moneySum st.players + (-(st.roundTotal - p.bet)) :=
            moneySum_update_add (fun q => by rw [chargeUpdate]; ring) hin
          dsimp only
          rw [hx]
          ring
        · dsimp only
          rw [hfold]
      | RAISE =>
        dsimp only
        split
        · have hx : moneySum (holdemUpdate st.players userId (chargeUpdate amt)) =
              moneySum st.players + (-amt) :=
            moneySum_update_add (fun q => by rw [chargeUpdate]; ring) hin
          dsimp only
          rw [hx]
          ring
        · dsimp only
          rw [hfold]
      | FOLD =>
        dsimp only
        rw [hfold]
  · intro st winners hne hnd hall
    have hlen : ((winners.length : ℚ)) ≠ 0 := by
      have hl0 : winners.length ≠ 0 := fun h => hne (List.length_eq_zero.mp h)
      exact_mod_cast hl0
    refine ⟨?_, rfl, ?_⟩
    · rw [finishRound]
      dsimp only
      rw [moneySum_creditWinners _ winners st.players hall]
      rw [div_mul_cancel₀ _ hlen]
    · intro w hw
      rw [finishRound]
      dsimp only
      exact holdemLookup_creditWinners_mem _ winners st.players w hnd hw

/-- A concrete two-player table with a 10-chip pot. -/
def c10State : HoldemBetState :=
  ⟨[("alice", ⟨200, 0, false, false⟩), ("bob", ⟨200, 0, false, false⟩)], 10, 0⟩

theorem C10_chip_conservation_witness :
    moneySum (processBetAction c10State "alice" BettingAction.RAISE 4).players +
        (processBetAction c10State "alice" BettingAction.RAISE 4).pot =
      moneySum c10State.players + c10State.pot ∧
    moneySum (finishRound c10State ["alice"]).players =
      moneySum c10State.players + c10State.pot :=
  ⟨C10_chip_conservation.1 c10State "alice" BettingAction.RAISE 4,
   (C10_chip_conservation.2 c10State ["alice"] (by decide) (by decide) (by decide)).1⟩

end RogServer
